import Mathlib

/-!
Verification development for the pdf-gen-ai document engine.

The modules under study render business documents (header with logo and
company name, paragraphs, tables, bar and pie charts, footer with date and
page number) onto fixed-size pages.  The definitions below are shallow
embeddings of the layout arithmetic and drawing loops of those modules:
cursor positions are rationals, drawing operations become explicit event
lists, the external page primitive and logo fetcher are modelled by their
interfaces, and fallible operations return Except or Option.
-/

namespace PdfGen

/-! ### JavaScript string primitives used by the modules -/

/-- Characters removed by the JavaScript trim call in the paragraph
filters (space, tab, line feed, carriage return, form feed, vertical
tab). -/
def jsIsSpace (c : Char) : Bool :=
  c = ' ' || c = '\t' || c = '\n' || c = '\r' || c = '\x0c' || c = '\x0b'

/-- JavaScript trim: drop leading and trailing whitespace. -/
def jsTrim (s : String) : String :=
  ⟨((s.toList.dropWhile jsIsSpace).reverse.dropWhile jsIsSpace).reverse⟩

/-- Accumulator loop producing the decimal digits of a natural number,
least significant digit pushed first; the fuel argument only bounds the
recursion depth. -/
def natToCharsAux : ℕ → ℕ → List Char → List Char
  | 0, _, acc => acc
  | fuel + 1, n, acc =>
    if n < 10 then Nat.digitChar (n % 10) :: acc
    else natToCharsAux fuel (n / 10) (Nat.digitChar (n % 10) :: acc)

/-- Decimal digits of a natural number, most significant first, as produced
by the JavaScript String conversion of a non-negative integer. -/
def natToChars (n : ℕ) : List Char := natToCharsAux (n + 1) n []

/-- JavaScript String conversion of a natural number. -/
def natToString (n : ℕ) : String := ⟨natToChars n⟩

/-- JavaScript String conversion of an integer. -/
def intToChars (n : ℤ) : List Char :=
  if n < 0 then '-' :: natToChars n.natAbs else natToChars n.toNat

/-- String.prototype.replace with a string pattern replaces only the first
occurrence of the pattern; this is the list-of-characters core. -/
def replaceFirstChars : List Char → List Char → List Char → List Char
  | [], _, _ => []
  | c :: rest, pat, rep =>
    if pat.isPrefixOf (c :: rest) then rep ++ (c :: rest).drop pat.length
    else c :: replaceFirstChars rest pat rep

/-- JavaScript replace of the first occurrence of a string pattern. -/
def jsReplaceFirst (s pat rep : String) : String :=
  ⟨replaceFirstChars s.toList pat.toList rep.toList⟩

/-! ### Paragraph rendering (createParagraphsPDF, createCompleteDocumentPDF)

The paragraph loops test `paragraph && paragraph.trim()` before drawing:
a null entry, an empty string, or a whitespace-only string is skipped and
produces neither a text block nor the moveDown spacing call. -/

/-- A drawing event emitted by the paragraph loop: one text block or one
inter-paragraph spacing advance. -/
inductive ParaEv
  | text (s : String)
  | moveDown
deriving DecidableEq

/-- The JavaScript condition `paragraph && paragraph.trim()`: the entry is
drawn only when it is non-null, non-empty, and not whitespace-only. -/
def keepPara : Option String → Bool
  | none => false
  | some s => !(s == "") && !(jsTrim s == "")

/-- The paragraph loop of createParagraphsPDF (and of the paragraph pass of
createCompleteDocumentPDF): entries failing the filter emit nothing. -/
def renderParagraphs : List (Option String) → List ParaEv
  | [] => []
  | none :: rest => renderParagraphs rest
  | some s :: rest =>
    if keepPara (some s) then
      ParaEv.text s :: ParaEv.moveDown :: renderParagraphs rest
    else renderParagraphs rest

/-! ### Table cell text (createPDFWithTable, addProfessionalTable)

Both row loops compute each cell as `String(row[name] || '')`, so any falsy
cell value (the number 0, the empty string, null, undefined/absent) renders
as the empty string. -/

/-- A JavaScript value in a table cell: the repository's row type is a
record of string or number values; null and undefined cover absent data. -/
inductive CellVal
  | str (s : String)
  | num (n : ℤ)
  | null
  | undefined
deriving DecidableEq

/-- JavaScript truthiness of a cell value. -/
def cellTruthy : CellVal → Bool
  | .str s => !(s == "")
  | .num n => !(n == 0)
  | .null => false
  | .undefined => false

/-- JavaScript String conversion of a cell value. -/
def jsStringOf : CellVal → String
  | .str s => s
  | .num n => ⟨intToChars n⟩
  | .null => "null"
  | .undefined => "undefined"

/-- `row[name]`: property access on the row object; a missing key yields
undefined. -/
def getCell (row : List (String × CellVal)) (name : String) : CellVal :=
  match row.lookup name with
  | some v => v
  | none => .undefined

/-- `String(row[name] || '')`: a falsy cell value renders as the empty
string, any other value as its String conversion. -/
def cellText (row : List (String × CellVal)) (name : String) : String :=
  if cellTruthy (getCell row name) then jsStringOf (getCell row name) else ""

/-! ### Theorems for paragraph filtering and cell rendering -/

/-- C6: an entry that is null, empty, or whitespace-only produces no text
block and no spacing: the rendered event list equals the rendering of the
input with all such entries removed, and the filter rejects exactly the
null entries and the entries whose trim is empty. -/
theorem blank_paragraphs_invisible (ps : List (Option String)) :
    renderParagraphs ps = renderParagraphs (ps.filter keepPara) ∧
    (∀ p : Option String,
      keepPara p = false ↔ p = none ∨ ∃ s, p = some s ∧ jsTrim s = "") := by
  constructor
  · induction ps with
    | nil => rfl
    | cons p rest ih =>
      cases p with
      | none => simpa [renderParagraphs, List.filter, keepPara] using ih
      | some s =>
        by_cases h : keepPara (some s) = true
        · simp [renderParagraphs, List.filter, h, ih]
        · simp only [Bool.not_eq_true] at h
          simp [renderParagraphs, List.filter, h, ih]
  · intro p
    cases p with
    | none => simp [keepPara]
    | some s =>
      constructor
      · intro h
        refine Or.inr ⟨s, rfl, ?_⟩
        by_cases hs : s = ""
        · subst hs; rfl
        · by_cases ht : jsTrim s = ""
          · exact ht
          · exfalso
            have hk : keepPara (some s) = true := by simp [keepPara, hs, ht]
            rw [hk] at h
            exact absurd h (by decide)
      · rintro (h | ⟨t, ht, htrim⟩)
        · exact absurd h (by simp)
        · cases ht
          simp [keepPara, htrim]

/-- C10: a cell holding the number 0, the empty string, null, or nothing at
all (missing key) renders as the empty string, identically to a missing
key, and not as the stringification of 0 (which is "0"). -/
theorem falsy_cells_render_empty (row : List (String × CellVal)) (name : String)
    (h : getCell row name = .num 0 ∨ getCell row name = .str "" ∨
         getCell row name = .null ∨ getCell row name = .undefined) :
    cellText row name = "" ∧ cellText row name = cellText [] name ∧
    jsStringOf (.num 0) = "0" ∧ "0" ≠ "" := by
  have hempty : cellText row name = "" := by
    rcases h with h | h | h | h <;> simp [cellText, h, cellTruthy]
  refine ⟨hempty, ?_, by decide, by decide⟩
  rw [hempty]
  rfl

/-- Witness for C10 at a concrete row: the key is present with value 0 and
renders as the empty string. -/
theorem falsy_cells_render_empty_witness :
    (getCell [("qty", CellVal.num 0)] "qty" = .num 0 ∨
      getCell [("qty", CellVal.num 0)] "qty" = .str "" ∨
      getCell [("qty", CellVal.num 0)] "qty" = .null ∨
      getCell [("qty", CellVal.num 0)] "qty" = .undefined) ∧
    (cellText [("qty", CellVal.num 0)] "qty" = "" ∧
      cellText [("qty", CellVal.num 0)] "qty" = cellText [] "qty" ∧
      jsStringOf (.num 0) = "0" ∧ "0" ≠ "") :=
  ⟨Or.inl rfl, falsy_cells_render_empty [("qty", CellVal.num 0)] "qty" (Or.inl rfl)⟩

/-! ### Footer pass (createPDFWithTable lines 287-314, createMultipleTables
in pdfWithCharts lines 373-384)

After layout, the code reads the total page count and loops i from 0 to
totalPages - 1, switching to page i and stamping the page number text.  The
page primitive is modelled per the collaborator contract: every laid-out
page can be revisited by index.  The text comes from the constant format
string by two first-occurrence replaces. -/

/-- The constant PAGE_NUMBER_FORMAT of pdfWithTable.ts. -/
def pageNumberFormat : String := "Page %d of %d"

/-- `PAGE_NUMBER_FORMAT.replace('%d', String(i + 1)).replace('%d',
String(totalPages))`. -/
def pageNumberText (current total : ℕ) : String :=
  jsReplaceFirst (jsReplaceFirst pageNumberFormat "%d" (natToString current))
    "%d" (natToString total)

/-- The footer pass: page index and stamped text for every buffered page. -/
def footerPass (totalPages : ℕ) : List (ℕ × String) :=
  (List.range totalPages).map (fun i => (i, pageNumberText (i + 1) totalPages))

/-- Every character the digit loop pushes is a decimal digit. -/
theorem natToCharsAux_digits (fuel n : ℕ) (acc : List Char)
    (hacc : ∀ c ∈ acc, c.isDigit = true) :
    ∀ c ∈ natToCharsAux fuel n acc, c.isDigit = true := by
  induction fuel generalizing n acc with
  | zero => exact hacc
  | succ fuel ih =>
    have hd : (Nat.digitChar (n % 10)).isDigit = true := by
      have h10 : n % 10 < 10 := Nat.mod_lt _ (by omega)
      interval_cases h : n % 10 <;> decide
    rw [natToCharsAux]
    split
    · intro c hc
      rcases List.mem_cons.mp hc with rfl | hc
      · exact hd
      · exact hacc c hc
    · exact ih (n / 10) _ (fun c hc => by
        rcases List.mem_cons.mp hc with rfl | hc
        · exact hd
        · exact hacc c hc)

/-- The decimal representation of a natural number contains no percent
character, so inserting it cannot create a new `%d` pattern. -/
theorem natToChars_ne_percent (n : ℕ) : ∀ c ∈ natToChars n, c ≠ '%' := by
  intro c hc
  have := natToCharsAux_digits (n + 1) n [] (by simp) c hc
  intro h
  subst h
  exact absurd this (by decide)

/-- Scanning for `%d` walks past any character other than the percent
sign. -/
theorem replaceFirstChars_cons_ne (c : Char) (s rep : List Char) (hc : c ≠ '%') :
    replaceFirstChars (c :: s) ['%', 'd'] rep =
      c :: replaceFirstChars s ['%', 'd'] rep := by
  have hpre : (['%', 'd'].isPrefixOf (c :: s)) = false := by
    simp only [List.isPrefixOf, Bool.and_eq_false_iff]
    exact Or.inl (by simpa [beq_eq_false_iff_ne] using fun h => hc h.symm)
  simp [replaceFirstChars, hpre]

/-- Scanning for `%d` walks past any percent-free block. -/
theorem replaceFirstChars_append_clean (s : List Char)
    (hs : ∀ c ∈ s, c ≠ '%') (t rep : List Char) :
    replaceFirstChars (s ++ t) ['%', 'd'] rep =
      s ++ replaceFirstChars t ['%', 'd'] rep := by
  induction s with
  | nil => rfl
  | cons c s ih =>
    rw [List.cons_append, replaceFirstChars_cons_ne c _ rep (hs c (by simp)),
      ih (fun c hc => hs c (by simp [hc])), List.cons_append]

/-- Building a string from a character list and reading it back is the
identity. -/
theorem toList_mk (l : List Char) : (String.mk l).toList = l := rfl

/-- The two-step replace on the footer format yields the expected plain
concatenation. -/
theorem pageNumberText_eq (current total : ℕ) :
    pageNumberText current total =
      "Page " ++ natToString current ++ " of " ++ natToString total := by
  have step1 : replaceFirstChars (pageNumberFormat.toList) "%d".toList
      (natToChars current) =
      ("Page ".toList ++ natToChars current) ++ " of %d".toList := by
    rfl
  have clean : ∀ c ∈ "Page ".toList ++ natToChars current, c ≠ '%' := by
    intro c hc
    rcases List.mem_append.mp hc with h | h
    · intro he; subst he; revert h; decide
    · exact natToChars_ne_percent current c h
  have hmid : replaceFirstChars (" of %d".toList) ['%', 'd'] (natToChars total) =
      " of ".toList ++ natToChars total := by
    simp [replaceFirstChars, List.isPrefixOf]
  have key : replaceFirstChars (("Page ".toList ++ natToChars current) ++ " of %d".toList)
      "%d".toList (natToChars total) =
      (("Page ".toList ++ natToChars current) ++ " of ".toList) ++ natToChars total := by
    rw [show ("%d".toList : List Char) = ['%', 'd'] from rfl,
      replaceFirstChars_append_clean _ clean, hmid]
    exact (List.append_assoc _ _ _).symm
  show String.mk (replaceFirstChars
      (String.mk (replaceFirstChars pageNumberFormat.toList "%d".toList
        (natToChars current))).toList
      "%d".toList (natToChars total)) = _
  rw [toList_mk, step1, key]
  rfl

/-- C2: the footer pass visits every buffered page exactly once, in index
order, and stamps page i (1-based) with "Page i of N" where N is the total
page count, the same N on every page. -/
theorem footer_page_numbers (N i : ℕ) (h : i < N) :
    (footerPass N).map Prod.fst = List.range N ∧
    (footerPass N)[i]? =
      some (i, "Page " ++ natToString (i + 1) ++ " of " ++ natToString N) := by
  constructor
  · show ((List.range N).map (fun i => (i, pageNumberText (i + 1) N))).map Prod.fst
      = List.range N
    rw [List.map_map,
      show (Prod.fst ∘ fun i : ℕ => (i, pageNumberText (i + 1) N)) = id from rfl,
      List.map_id]
  · simp [footerPass, List.getElem?_map, List.getElem?_range, h, pageNumberText_eq]

/-- Witness for C2: a two-page document gets "Page 1 of 2" stamped on the
first page. -/
theorem footer_page_numbers_witness :
    (0 < 2) ∧
    ((footerPass 2).map Prod.fst = List.range 2 ∧
      (footerPass 2)[0]? =
        some (0, "Page " ++ natToString 1 ++ " of " ++ natToString 2)) :=
  ⟨by decide, footer_page_numbers 2 0 (by decide)⟩

/-! ### Page-break decision in the table row loops (C1)

Both cited row loops compare the cursor against the bottom bound using a
fixed per-row estimate (20 points in createPDFWithTable, 30 points in
addProfessionalTable), not the measured row height: the measured
maxRowHeight is computed only after the break decision. -/

/-- Geometry of createPDFWithTable: page height, bottom margin, and the
cursor position doc.y reached after the page header is redrawn on a fresh
page. -/
structure TableGeom where
  pageHeight : ℚ
  marginBottom : ℚ
  resetY : ℚ

/-- The bottom content bound pageHeight - marginBottom. -/
def TableGeom.bound (g : TableGeom) : ℚ := g.pageHeight - g.marginBottom

/-- The row loop of createPDFWithTable (lines 216-284): before each row the
code compares startY + 20 (a fixed estimate, not the measured row height)
against the bottom bound; on overflow it adds a page, redraws the page
header and resets startY to the post-header cursor; the row is then drawn
and the cursor advances by the measured maxRowHeight plus 5 (separator)
plus 10.  Each result entry is a row's draw-start position paired with
whether a page break fired for it; the list argument carries each row's
measured maxRowHeight. -/
def pwtRowPositions (g : TableGeom) : ℚ → List ℚ → List (ℚ × Bool)
  | _, [] => []
  | y, h :: rest =>
    if y + 20 > g.bound then
      (g.resetY, true) :: pwtRowPositions g (g.resetY + h + 15) rest
    else
      (y, false) :: pwtRowPositions g (y + h + 15) rest

/-- Geometry of addProfessionalTable (pdfWithMultipleTables):
availableHeight (page height minus the footer reserve), the page margin,
and the cursor advance of the redrawn column-header block on a fresh
page. -/
structure MTGeom where
  availableHeight : ℚ
  margin : ℚ
  headerAdvance : ℚ

/-- The row loop of addProfessionalTable (lines 253-306): before each row
the code compares currentY + 30 (fixed estimate) against availableHeight;
on overflow it adds a page, resets currentY to the margin and redraws the
column-name header row (advancing by headerAdvance) before drawing the
row; each row then advances the cursor by its own measured amount. -/
def mtRowPositions (g : MTGeom) : ℚ → List ℚ → List (ℚ × Bool)
  | _, [] => []
  | y, h :: rest =>
    if y + 30 > g.availableHeight then
      (g.margin + g.headerAdvance, true) ::
        mtRowPositions g (g.margin + g.headerAdvance + h) rest
    else
      (y, false) :: mtRowPositions g (y + h) rest

/-- Counterexample to C1 as stated: on a US-letter page (height 792, bottom
margin 72, bound 720) a row whose measured height is 50 is about to be
drawn at cursor 690; 690 + 50 exceeds the bound, yet no page break fires
because the code checks 690 + 20 against the bound, and the row begins
drawing at 690 on the same page. -/
theorem row_break_ignores_measured_height_cex :
    pwtRowPositions ⟨792, 72, 120⟩ 690 [50] = [(690, false)] ∧
    (690 : ℚ) + 50 > (792 : ℚ) - 72 := by
  constructor
  · norm_num [pwtRowPositions, TableGeom.bound]
  · norm_num

/-- C1 amended: the break check before each table row uses a fixed estimate
(20 points in createPDFWithTable, 30 points in addProfessionalTable), not
the measured row height; provided the post-break reset position itself
leaves that much room, every row begins drawing at a cursor y with
y + estimate within the bound — but a row whose measured height exceeds
the estimate may still extend past the bound. -/
theorem row_break_fixed_estimate_invariant (g : TableGeom) (m : MTGeom)
    (hg : g.resetY + 20 ≤ g.bound)
    (hm : m.margin + m.headerAdvance + 30 ≤ m.availableHeight)
    (y0 z0 : ℚ) (hs ks : List ℚ) :
    (∀ p ∈ pwtRowPositions g y0 hs, p.1 + 20 ≤ g.bound) ∧
    (∀ p ∈ mtRowPositions m z0 ks, p.1 + 30 ≤ m.availableHeight) := by
  constructor
  · induction hs generalizing y0 with
    | nil => simp [pwtRowPositions]
    | cons h rest ih =>
      intro p hp
      simp only [pwtRowPositions] at hp
      by_cases hy : y0 + 20 > g.bound
      · rw [if_pos hy] at hp
        rcases List.mem_cons.mp hp with rfl | hp
        · simpa using hg
        · exact ih _ p hp
      · rw [if_neg hy] at hp
        rcases List.mem_cons.mp hp with rfl | hp
        · simpa using le_of_not_lt hy
        · exact ih _ p hp
  · induction ks generalizing z0 with
    | nil => simp [mtRowPositions]
    | cons h rest ih =>
      intro p hp
      simp only [mtRowPositions] at hp
      by_cases hz : z0 + 30 > m.availableHeight
      · rw [if_pos hz] at hp
        rcases List.mem_cons.mp hp with rfl | hp
        · simpa using hm
        · exact ih _ p hp
      · rw [if_neg hz] at hp
        rcases List.mem_cons.mp hp with rfl | hp
        · simpa using le_of_not_lt hz
        · exact ih _ p hp

/-- Witness for the amended C1 at concrete geometry and rows. -/
theorem row_break_fixed_estimate_invariant_witness :
    ((⟨792, 72, 120⟩ : TableGeom).resetY + 20 ≤ (⟨792, 72, 120⟩ : TableGeom).bound ∧
      (⟨700, 50, 40⟩ : MTGeom).margin + (⟨700, 50, 40⟩ : MTGeom).headerAdvance + 30 ≤
        (⟨700, 50, 40⟩ : MTGeom).availableHeight) ∧
    ((∀ p ∈ pwtRowPositions ⟨792, 72, 120⟩ 690 [50, 30],
        p.1 + 20 ≤ (⟨792, 72, 120⟩ : TableGeom).bound) ∧
      (∀ p ∈ mtRowPositions ⟨700, 50, 40⟩ 600 [12],
        p.1 + 30 ≤ (⟨700, 50, 40⟩ : MTGeom).availableHeight)) :=
  ⟨⟨by norm_num [TableGeom.bound], by norm_num⟩,
    row_break_fixed_estimate_invariant ⟨792, 72, 120⟩ ⟨700, 50, 40⟩
      (by norm_num [TableGeom.bound]) (by norm_num) 690 600 [50, 30] [12]⟩

/-! ### Mid-table page breaks and header-row repetition (C3)

addProfessionalTable redraws the column-name header row after every
mid-table break; createPDFWithTable redraws only the page header (logo and
company name) and continues straight with the pending data row. -/

/-- A drawing event of the table renderers. -/
inductive TblEv
  | heading (s : String)
  | headerCell (s : String)
  | headerSep
  | pageBreak
  | pageHeader
  | cell (s : String)
  | rowSep
deriving DecidableEq

/-- The data cells of one row, in column order, each rendered with
`String(row[name] || '')`. -/
def rowCellEvents (cols : List String) (row : List (String × CellVal)) : List TblEv :=
  cols.map (fun n => TblEv.cell (cellText row n))

/-- The row loop of addProfessionalTable (pdfWithMultipleTables lines
253-306): on a mid-table break (currentY + 30 over availableHeight) the
column-name header row and its separator are redrawn, at the margin of the
fresh page, before the pending row's cells; each row advances the cursor
by its own measured amount (the second component of each row entry). -/
def mtRowsEvents (g : MTGeom) (cols : List String) :
    ℚ → List (List (String × CellVal) × ℚ) → List TblEv
  | _, [] => []
  | y, (row, adv) :: rest =>
    if y + 30 > g.availableHeight then
      TblEv.pageBreak ::
        (cols.map TblEv.headerCell ++ [TblEv.headerSep] ++
          rowCellEvents cols row ++ [TblEv.rowSep]) ++
        mtRowsEvents g cols (g.margin + g.headerAdvance + adv) rest
    else
      (rowCellEvents cols row ++ [TblEv.rowSep]) ++
        mtRowsEvents g cols (y + adv) rest

/-- The whole table block of addProfessionalTable for a non-empty item
list (lines 186-306): heading, then — if fewer than 40 points remain — a
page break with the heading redrawn, then the header row taken from the
keys of the first item, its separator, and the row loop.  headingAdv
abstracts the cursor advance of the heading text, and g.headerAdvance the
advance of the header row with its separator and spacing. -/
def mtTableEvents (g : MTGeom) (heading : String)
    (rows : List (List (String × CellVal) × ℚ)) (y0 headingAdv : ℚ) : List TblEv :=
  match rows with
  | [] => []
  | first :: _ =>
    let cols := first.1.map Prod.fst
    let y1 := y0 + headingAdv
    if y1 + 40 > g.availableHeight then
      TblEv.heading heading :: TblEv.pageBreak :: TblEv.heading heading ::
        (cols.map TblEv.headerCell ++ [TblEv.headerSep]) ++
        mtRowsEvents g cols (g.margin + headingAdv + g.headerAdvance) rows
    else
      TblEv.heading heading ::
        (cols.map TblEv.headerCell ++ [TblEv.headerSep]) ++
        mtRowsEvents g cols (y1 + g.headerAdvance) rows

/-- The row loop of createPDFWithTable (lines 216-284): on a mid-table
break only the page header (logo and company name) is redrawn; the
column-name row is not repeated before the pending data row. -/
def pwtRowsEvents (g : TableGeom) (cols : List String) :
    ℚ → List (List (String × CellVal) × ℚ) → List TblEv
  | _, [] => []
  | y, (row, adv) :: rest =>
    if y + 20 > g.bound then
      TblEv.pageBreak :: TblEv.pageHeader ::
        (rowCellEvents cols row ++ [TblEv.rowSep]) ++
        pwtRowsEvents g cols (g.resetY + adv) rest
    else
      (rowCellEvents cols row ++ [TblEv.rowSep]) ++
        pwtRowsEvents g cols (y + adv) rest

/-- Scanning forward from a page break: the verbatim header row must be
reached (contiguously) before any data cell is drawn. -/
def headerBeforeNextCell (cols : List String) : List TblEv → Bool
  | [] => true
  | TblEv.headerCell c :: rest =>
    (cols.map TblEv.headerCell).isPrefixOf (TblEv.headerCell c :: rest)
  | TblEv.cell _ :: _ => false
  | _ :: rest => headerBeforeNextCell cols rest

/-- Checks that after every page break of the event list the given header
row is redrawn before the next data cell. -/
def breaksRedrawHeader (cols : List String) : List TblEv → Bool
  | [] => true
  | TblEv.pageBreak :: rest =>
    headerBeforeNextCell cols rest && breaksRedrawHeader cols rest
  | _ :: rest => breaksRedrawHeader cols rest

/-- A list is a prefix of itself followed by anything (Boolean form). -/
theorem isPrefixOf_append_self (l t : List TblEv) : l.isPrefixOf (l ++ t) = true := by
  induction l with
  | nil => simp [List.isPrefixOf]
  | cons a l ih => simp [List.isPrefixOf, ih]

/-- The break checker ignores a break-free block. -/
theorem breaksRedrawHeader_append (cols : List String) (xs t : List TblEv)
    (hx : TblEv.pageBreak ∉ xs) :
    breaksRedrawHeader cols (xs ++ t) = breaksRedrawHeader cols t := by
  induction xs with
  | nil => rfl
  | cons e xs ih =>
    have he : e ≠ TblEv.pageBreak := fun h => hx (by simp [h])
    have ht : TblEv.pageBreak ∉ xs := fun h => hx (by simp [h])
    cases e <;> simp_all [breaksRedrawHeader]

/-- There is no page break among header cells. -/
theorem pageBreak_not_mem_headerCells (cols : List String) :
    TblEv.pageBreak ∉ cols.map TblEv.headerCell := by
  simp

/-- There is no page break among data cells. -/
theorem pageBreak_not_mem_rowCells (cols : List String)
    (row : List (String × CellVal)) :
    TblEv.pageBreak ∉ rowCellEvents cols row := by
  simp [rowCellEvents]

/-- From a redrawn header row onward, the scan succeeds. -/
theorem headerBeforeNextCell_of_header (cols : List String) (hc : cols ≠ [])
    (t : List TblEv) :
    headerBeforeNextCell cols (cols.map TblEv.headerCell ++ t) = true := by
  cases cols with
  | nil => exact absurd rfl hc
  | cons c cols =>
    show headerBeforeNextCell (c :: cols) (TblEv.headerCell c :: (cols.map TblEv.headerCell ++ t)) = true
    simp only [headerBeforeNextCell]
    exact isPrefixOf_append_self _ _


/-- Unfolding equation: a page break starts the header scan. -/
theorem breaksRedrawHeader_cons_break (cols : List String) (t : List TblEv) :
    breaksRedrawHeader cols (TblEv.pageBreak :: t) =
      (headerBeforeNextCell cols t && breaksRedrawHeader cols t) := rfl

/-- Unfolding equation: the break checker skips a heading event. -/
theorem breaksRedrawHeader_cons_heading (cols : List String) (s : String)
    (t : List TblEv) :
    breaksRedrawHeader cols (TblEv.heading s :: t) = breaksRedrawHeader cols t := rfl

/-- Unfolding equation: the header scan skips a heading event. -/
theorem headerBeforeNextCell_cons_heading (cols : List String) (s : String)
    (t : List TblEv) :
    headerBeforeNextCell cols (TblEv.heading s :: t) = headerBeforeNextCell cols t := rfl

/-- After every mid-table break of the addProfessionalTable row loop the
column-name header row is redrawn before the pending row's cells. -/
theorem breaksRedrawHeader_mtRows (g : MTGeom) (cols : List String)
    (hc : cols ≠ []) (y : ℚ) (rows : List (List (String × CellVal) × ℚ)) :
    breaksRedrawHeader cols (mtRowsEvents g cols y rows) = true := by
  induction rows generalizing y with
  | nil => rfl
  | cons r rest ih =>
    obtain ⟨row, adv⟩ := r
    simp only [mtRowsEvents]
    by_cases hy : y + 30 > g.availableHeight
    · rw [if_pos hy]
      have hX : TblEv.pageBreak ∉
          (cols.map TblEv.headerCell ++ [TblEv.headerSep] ++
            rowCellEvents cols row ++ [TblEv.rowSep]) := by
        simp [rowCellEvents]
      have h2 : breaksRedrawHeader cols
          ((cols.map TblEv.headerCell ++ [TblEv.headerSep] ++
              rowCellEvents cols row ++ [TblEv.rowSep]) ++
            mtRowsEvents g cols (g.margin + g.headerAdvance + adv) rest) = true := by
        rw [breaksRedrawHeader_append cols _ _ hX]
        exact ih _
      have h1 : headerBeforeNextCell cols
          ((cols.map TblEv.headerCell ++ [TblEv.headerSep] ++
              rowCellEvents cols row ++ [TblEv.rowSep]) ++
            mtRowsEvents g cols (g.margin + g.headerAdvance + adv) rest) = true := by
        have h := headerBeforeNextCell_of_header cols hc
          ([TblEv.headerSep] ++ rowCellEvents cols row ++ [TblEv.rowSep] ++
            mtRowsEvents g cols (g.margin + g.headerAdvance + adv) rest)
        simpa [List.append_assoc] using h
      rw [List.cons_append, breaksRedrawHeader_cons_break, h1, h2]
      rfl
    · rw [if_neg hy]
      rw [breaksRedrawHeader_append cols _ _ (by simp [rowCellEvents])]
      exact ih _

/-- C3 amended: in addProfessionalTable, after every page break inside a
table (including the whole-table restart when fewer than 40 points remain)
the column-name header row — the same strings taken from the keys of the
first item — is redrawn before the next data cell.  In createPDFWithTable
a mid-table break redraws only the page header, not the table's header
row (see the counterexample). -/
theorem midtable_break_redraws_header (g : MTGeom) (heading : String)
    (first : List (String × CellVal) × ℚ)
    (rest : List (List (String × CellVal) × ℚ)) (y0 headingAdv : ℚ)
    (hc : first.1 ≠ []) :
    breaksRedrawHeader (first.1.map Prod.fst)
      (mtTableEvents g heading (first :: rest) y0 headingAdv) = true := by
  have hcols : first.1.map Prod.fst ≠ [] := by
    simpa using hc
  simp only [mtTableEvents]
  by_cases hy : y0 + headingAdv + 40 > g.availableHeight
  · rw [if_pos hy]
    rw [List.cons_append, List.cons_append, List.cons_append,
      breaksRedrawHeader_cons_heading, breaksRedrawHeader_cons_break,
      headerBeforeNextCell_cons_heading, breaksRedrawHeader_cons_heading,
      List.append_assoc, headerBeforeNextCell_of_header _ hcols,
      breaksRedrawHeader_append _ _ _ (by simp),
      breaksRedrawHeader_append _ _ _ (by simp),
      breaksRedrawHeader_mtRows g _ hcols]
    rfl
  · rw [if_neg hy]
    rw [List.cons_append, breaksRedrawHeader_cons_heading,
      breaksRedrawHeader_append _ _ _ (by simp)]
    exact breaksRedrawHeader_mtRows g _ hcols _ _

/-- Witness for the amended C3: a two-row table whose second row triggers a
mid-table break; the checker confirms the header-row redraw. -/
theorem midtable_break_redraws_header_witness :
    ([("Name", CellVal.str "a")] ≠ ([] : List (String × CellVal))) ∧
    breaksRedrawHeader ((([("Name", CellVal.str "a")], (30 : ℚ)).1).map Prod.fst)
      (mtTableEvents ⟨160, 20, 10⟩ "Sales"
        [([("Name", CellVal.str "a")], 30), ([("Name", CellVal.str "b")], 30)]
        100 10) = true :=
  ⟨by decide,
    midtable_break_redraws_header ⟨160, 20, 10⟩ "Sales"
      ([("Name", CellVal.str "a")], 30) [([("Name", CellVal.str "b")], 30)]
      100 10 (by decide)⟩

/-- Counterexample to C3 as stated: in createPDFWithTable, a mid-table
break (bound 720, second row at cursor 725) is followed by the page header
and then directly by the pending row's cells — the column-name header row
is not redrawn. -/
theorem pwt_break_no_header_redraw_cex :
    pwtRowsEvents ⟨792, 72, 120⟩ ["Name"] 700
        [([("Name", CellVal.str "a")], 25), ([("Name", CellVal.str "b")], 25)] =
      [TblEv.cell "a", TblEv.rowSep, TblEv.pageBreak, TblEv.pageHeader,
        TblEv.cell "b", TblEv.rowSep] ∧
    breaksRedrawHeader ["Name"]
      [TblEv.cell "a", TblEv.rowSep, TblEv.pageBreak, TblEv.pageHeader,
        TblEv.cell "b", TblEv.rowSep] = false := by
  constructor
  · norm_num [pwtRowsEvents, TableGeom.bound, rowCellEvents, cellText, getCell,
      cellTruthy, jsStringOf]
    decide
  · rfl

/-! ### Logo scaling (C4) -/

/-- Single-factor scaling rule of createPDFWithTable (lines 134-149) and
addElegantHeader (pdfWithMultipleTables lines 92-100):
scale = min(maxWidth/naturalWidth, maxHeight/naturalHeight, 1). -/
def logoScaleFactor (w h maxW maxH : ℚ) : ℚ :=
  min (min (maxW / w) (maxH / h)) 1

/-- Scaled logo dimensions produced from the single factor. -/
def logoScaled (w h maxW maxH : ℚ) : ℚ × ℚ :=
  (w * logoScaleFactor w h maxW maxH, h * logoScaleFactor w h maxW maxH)

/-- Sequential two-step scaling of addHeaderWithLogo (pdfWithParagraphs
lines 366-380): first clamp the width to maxLogoWidth, then clamp the
already-adjusted height to maxLogoHeight, rescaling the width again. -/
def seqLogoScaled (w h maxW maxH : ℚ) : ℚ × ℚ :=
  let w1 := if w > maxW then maxW else w
  let h1 := if w > maxW then h * (maxW / w) else h
  if h1 > maxH then (w1 * (maxH / h1), maxH) else (w1, h1)

/-- Logo sizing of createMultipleTables and createPDFWithBarsAndPie
(pdfWithCharts lines 115-132, part_013 lines 86-111): the logo is drawn at
the configured logoWidth (default 100) regardless of its natural size; the
accompanying height follows the natural aspect ratio when the probe
returned a height, else equals the width.  There is no bounding box and no
upscale guard. -/
def chartsLogoScaled (w h L : ℚ) : ℚ × ℚ :=
  (L, if h ≠ 0 then h * L / w else L)

/-- Counterexample to C4 as stated: the charts modules draw a 50×25 logo at
the default width 100, twice its natural width — the logo is upscaled and
its dimensions do not come from the claimed min factor (which would forbid
any width above 50). -/
theorem charts_logo_upscales_cex :
    chartsLogoScaled 50 25 100 = (100, 50) ∧ (50 : ℚ) < 100 := by
  constructor
  · norm_num [chartsLogoScaled]
  · norm_num

/-- The sequential two-step clamp computes exactly the single min-factor
scaling. -/
theorem seqLogoScaled_eq_single (w h maxW maxH : ℚ) (hw : 0 < w) (hh : 0 < h)
    (hW : 0 < maxW) (hH : 0 < maxH) :
    seqLogoScaled w h maxW maxH = logoScaled w h maxW maxH := by
  have hwne : w ≠ 0 := ne_of_gt hw
  have hhne : h ≠ 0 := ne_of_gt hh
  unfold seqLogoScaled logoScaled logoScaleFactor
  by_cases h1 : w > maxW
  · have haw : maxW / w < 1 := (div_lt_one hw).mpr h1
    simp only [if_pos h1]
    by_cases h2 : h * (maxW / w) > maxH
    · have h2w : maxH * w < h * maxW := by
        have hlt : maxH < h * maxW / w := by
          rw [mul_div_assoc]
          exact h2
        exact (lt_div_iff₀ hw).mp hlt
      have hlt : maxH / h < maxW / w := by
        rw [div_lt_div_iff₀ hh hw]
        linarith
      have hmin1 : min (maxW / w) (maxH / h) = maxH / h :=
        min_eq_right (le_of_lt hlt)
      have hmin2 : min (maxH / h) 1 = maxH / h :=
        min_eq_left (le_of_lt (lt_trans hlt haw))
      rw [if_pos h2, hmin1, hmin2]
      have hne : h * (maxW / w) ≠ 0 := by positivity
      refine Prod.ext ?_ ?_
      · show maxW * (maxH / (h * (maxW / w))) = w * (maxH / h)
        field_simp
        ring
      · show maxH = h * (maxH / h)
        field_simp
    · have h2w : h * maxW ≤ maxH * w := by
        have hle : h * maxW / w ≤ maxH := by
          rw [mul_div_assoc]
          exact le_of_not_lt h2
        exact (div_le_iff₀ hw).mp hle
      have hle : maxW / w ≤ maxH / h := by
        rw [div_le_div_iff₀ hw hh]
        linarith
      have hmin1 : min (maxW / w) (maxH / h) = maxW / w := min_eq_left hle
      have hmin2 : min (maxW / w) 1 = maxW / w := min_eq_left (le_of_lt haw)
      rw [if_neg h2, hmin1, hmin2]
      refine Prod.ext ?_ ?_
      · show maxW = w * (maxW / w)
        field_simp
      · rfl
  · have haw : 1 ≤ maxW / w := (one_le_div hw).mpr (le_of_not_lt h1)
    simp only [if_neg h1]
    by_cases h3 : h > maxH
    · have hbh : maxH / h < 1 := (div_lt_one hh).mpr h3
      have hmin1 : min (maxW / w) (maxH / h) = maxH / h :=
        min_eq_right (le_of_lt (lt_of_lt_of_le hbh haw))
      have hmin2 : min (maxH / h) 1 = maxH / h := min_eq_left (le_of_lt hbh)
      rw [if_pos h3, hmin1, hmin2]
      refine Prod.ext ?_ ?_
      · rfl
      · show maxH = h * (maxH / h)
        field_simp
    · have hbh : 1 ≤ maxH / h := (one_le_div hh).mpr (le_of_not_lt h3)
      have hmin2 : min (min (maxW / w) (maxH / h)) 1 = 1 :=
        min_eq_right (le_min haw hbh)
      rw [if_neg h3, hmin2]
      refine Prod.ext ?_ ?_
      · show w = w * 1
        rw [mul_one]
      · show h = h * 1
        rw [mul_one]

/-- C4 amended: in createPDFWithTable, addElegantHeader and
addHeaderWithLogo the scaled dimensions are w·s and h·s for the single
factor s = min(maxWidth/w, maxHeight/h, 1) — the aspect ratio is exact,
both dimensions fit the box, the logo is never upscaled, and the
sequential clamp of addHeaderWithLogo computes the same pair.  The charts
modules instead draw the logo at the configured fixed width (default 100)
with height from the natural aspect ratio: proportions are kept when the
probe yields a height, but the logo may be upscaled and no height bound
exists (see the counterexample). -/
theorem logo_scaling_rule (w h maxW maxH L : ℚ)
    (hw : 0 < w) (hh : 0 < h) (hW : 0 < maxW) (hH : 0 < maxH) :
    (logoScaled w h maxW maxH).2 * w = (logoScaled w h maxW maxH).1 * h ∧
    (logoScaled w h maxW maxH).1 ≤ maxW ∧
    (logoScaled w h maxW maxH).2 ≤ maxH ∧
    (logoScaled w h maxW maxH).1 ≤ w ∧
    (logoScaled w h maxW maxH).2 ≤ h ∧
    seqLogoScaled w h maxW maxH = logoScaled w h maxW maxH ∧
    (h ≠ 0 → (chartsLogoScaled w h L).2 * w = (chartsLogoScaled w h L).1 * h) := by
  have hs1 : logoScaleFactor w h maxW maxH ≤ maxW / w :=
    le_trans (min_le_left _ _) (min_le_left _ _)
  have hs2 : logoScaleFactor w h maxW maxH ≤ maxH / h :=
    le_trans (min_le_left _ _) (min_le_right _ _)
  have hs3 : logoScaleFactor w h maxW maxH ≤ 1 := min_le_right _ _
  refine ⟨by simp [logoScaled]; ring, ?_, ?_, ?_, ?_,
    seqLogoScaled_eq_single w h maxW maxH hw hh hW hH, ?_⟩
  · show w * logoScaleFactor w h maxW maxH ≤ maxW
    calc w * logoScaleFactor w h maxW maxH ≤ w * (maxW / w) :=
          mul_le_mul_of_nonneg_left hs1 (le_of_lt hw)
      _ = maxW := by field_simp
  · show h * logoScaleFactor w h maxW maxH ≤ maxH
    calc h * logoScaleFactor w h maxW maxH ≤ h * (maxH / h) :=
          mul_le_mul_of_nonneg_left hs2 (le_of_lt hh)
      _ = maxH := by field_simp
  · show w * logoScaleFactor w h maxW maxH ≤ w
    calc w * logoScaleFactor w h maxW maxH ≤ w * 1 :=
          mul_le_mul_of_nonneg_left hs3 (le_of_lt hw)
      _ = w := mul_one w
  · show h * logoScaleFactor w h maxW maxH ≤ h
    calc h * logoScaleFactor w h maxW maxH ≤ h * 1 :=
          mul_le_mul_of_nonneg_left hs3 (le_of_lt hh)
      _ = h := mul_one h
  · intro hne
    show (if h ≠ 0 then h * L / w else L) * w = L * h
    rw [if_pos hne]
    field_simp
    ring

/-- Witness for the amended C4 at a 200×80 logo in a 150×50 box with the
charts fixed width 100. -/
theorem logo_scaling_rule_witness :
    ((0 : ℚ) < 200 ∧ (0 : ℚ) < 80 ∧ (0 : ℚ) < 150 ∧ (0 : ℚ) < 50) ∧
    ((logoScaled 200 80 150 50).2 * 200 = (logoScaled 200 80 150 50).1 * 80 ∧
      (logoScaled 200 80 150 50).1 ≤ 150 ∧
      (logoScaled 200 80 150 50).2 ≤ 50 ∧
      (logoScaled 200 80 150 50).1 ≤ 200 ∧
      (logoScaled 200 80 150 50).2 ≤ 80 ∧
      seqLogoScaled 200 80 150 50 = logoScaled 200 80 150 50 ∧
      ((80 : ℚ) ≠ 0 →
        (chartsLogoScaled 200 80 100).2 * 200 = (chartsLogoScaled 200 80 100).1 * 80)) :=
  ⟨⟨by norm_num, by norm_num, by norm_num, by norm_num⟩,
    logo_scaling_rule 200 80 150 50 100 (by norm_num) (by norm_num)
      (by norm_num) (by norm_num)⟩

/-! ### Logo fetch error handling (C5) and empty tables (C9) -/

/-- Outcome of the external fetch plus dimension-probe collaborators: the
fetch either fails or returns bytes (abstracted to a tag) together with
the probe result (none when the probe threw, a pair otherwise). -/
inductive FetchOutcome
  | fetchError
  | ok (bytes : ℕ) (dims : Option (ℕ × ℕ))
deriving DecidableEq

/-- A fetched logo with its natural dimensions. -/
structure LogoResult where
  imageData : ℕ
  width : ℕ
  height : ℕ
deriving DecidableEq

/-- fetchLogo of pdfWithParagraphs (lines 313-346): a fetch failure is
rethrown; a probe failure, or a probe result with a falsy dimension, falls
back to the default 100×50. -/
def fetchLogo : FetchOutcome → Except String LogoResult
  | .fetchError => .error "Error fetching logo"
  | .ok bytes dims =>
    match dims with
    | some (w, h) =>
      if w ≠ 0 ∧ h ≠ 0 then .ok ⟨bytes, w, h⟩ else .ok ⟨bytes, 100, 50⟩
    | none => .ok ⟨bytes, 100, 50⟩

/-- A header drawing event: the logo image or the company name text. -/
inductive HdrEv
  | logo (w h : ℕ)
  | company (s : String)
deriving DecidableEq

/-- createHeaderedParagraphsPDF (pdfWithParagraphs lines 185-306): a
fetchLogo failure is rethrown as "Failed to fetch logo: ...", aborting the
whole render; otherwise the header (logo, then company name) and the
filtered paragraphs are rendered and the output buffer produced. -/
def createHeaderedParagraphsPDF (fetch : FetchOutcome) (companyName : String)
    (paragraphs : List (Option String)) :
    Except String (List HdrEv × List ParaEv) :=
  match fetchLogo fetch with
  | .error e => .error ("Failed to fetch logo: " ++ e)
  | .ok logo =>
    .ok ([HdrEv.logo logo.width logo.height, HdrEv.company companyName],
      renderParagraphs paragraphs)

/-- getLogoImage with its catch in createPDFWithTable (lines 58-88 and
124-131): any fetch or probe error is absorbed and the render continues
without a logo. -/
def pwtLogoResult : FetchOutcome → Option LogoResult
  | .fetchError => none
  | .ok bytes dims =>
    match dims with
    | some (w, h) =>
      if w ≠ 0 ∧ h ≠ 0 then some ⟨bytes, w, h⟩ else none
    | none => none

/-- The page header of createPDFWithTable (lines 134-160): the logo only
when one was resolved, always the company name. -/
def pwtHeader (logo : Option LogoResult) (companyName : String) : List HdrEv :=
  (match logo with
   | some l => [HdrEv.logo l.width l.height]
   | none => []) ++ [HdrEv.company companyName]

/-- One table argument of createPDFWithTable: heading and item rows, each
row paired with its abstract measured cursor advance. -/
structure PwtTableData where
  tableHeading : String
  items : List (List (String × CellVal) × ℚ)

/-- Final cursor position of the createPDFWithTable row loop. -/
def pwtRowsFinalY (g : TableGeom) : ℚ → List (List (String × CellVal) × ℚ) → ℚ
  | y, [] => y
  | y, (_, adv) :: rest =>
    if y + 20 > g.bound then pwtRowsFinalY g (g.resetY + adv) rest
    else pwtRowsFinalY g (y + adv) rest

/-- The table block of createPDFWithTable (lines 176-285): drawn only when
table data is present with a non-empty item list; otherwise nothing is
drawn (no heading, no header row, no rows) and the cursor is untouched.
headingAdv abstracts the cursor advance of the heading and the header
row. -/
def pwtTableBlock (g : TableGeom) (headingAdv : ℚ)
    (td : Option PwtTableData) (y : ℚ) : List TblEv × ℚ :=
  match td with
  | none => ([], y)
  | some t =>
    match t.items with
    | [] => ([], y)
    | first :: rest =>
      (TblEv.heading t.tableHeading ::
        ((first.1.map Prod.fst).map TblEv.headerCell ++ [TblEv.headerSep]) ++
        pwtRowsEvents g (first.1.map Prod.fst) (y + headingAdv) (first :: rest),
       pwtRowsFinalY g (y + headingAdv) (first :: rest))

/-- The whole createPDFWithTable render: header, the paragraph loop (which
draws every paragraph item), the table block, then the footer pass over
the final page count (1 plus the breaks induced by the table). -/
def createPDFWithTableModel (g : TableGeom) (headingAdv : ℚ)
    (fetch : FetchOutcome) (companyName : String) (pdfData : List String)
    (td : Option PwtTableData) (y0 : ℚ) :
    List HdrEv × List ParaEv × List TblEv × List (ℕ × String) :=
  let tbl := pwtTableBlock g headingAdv td y0
  (pwtHeader (pwtLogoResult fetch) companyName,
   (pdfData.map (fun s => [ParaEv.text s, ParaEv.moveDown])).flatten,
   tbl.1,
   footerPass (1 + tbl.1.count TblEv.pageBreak))

/-- Final cursor position of the addProfessionalTable row loop. -/
def mtRowsFinalY (g : MTGeom) : ℚ → List (List (String × CellVal) × ℚ) → ℚ
  | y, [] => y
  | y, (_, adv) :: rest =>
    if y + 30 > g.availableHeight then
      mtRowsFinalY g (g.margin + g.headerAdvance + adv) rest
    else mtRowsFinalY g (y + adv) rest

/-- addProfessionalTable (pdfWithMultipleTables lines 180-309): with a
missing table or an empty item list it returns startY unchanged and draws
nothing; otherwise it draws the table events and returns the cursor after
the last row. -/
def mtTableBlock (g : MTGeom) (headingAdv : ℚ)
    (td : Option PwtTableData) (startY : ℚ) : List TblEv × ℚ :=
  match td with
  | none => ([], startY)
  | some t =>
    match t.items with
    | [] => ([], startY)
    | first :: rest =>
      (mtTableEvents g t.tableHeading (first :: rest) startY headingAdv,
       if startY + headingAdv + 40 > g.availableHeight then
         mtRowsFinalY g (g.margin + headingAdv + g.headerAdvance) (first :: rest)
       else
         mtRowsFinalY g (startY + headingAdv + g.headerAdvance) (first :: rest))

/-- Counterexample to C5 as stated: in createHeaderedParagraphsPDF a logo
fetch error is fatal — the render returns an error instead of completing
with a company-name-only header. -/
theorem logo_fetch_error_fatal_cex :
    createHeaderedParagraphsPDF FetchOutcome.fetchError "Acme" [some "Hello"] =
      Except.error "Failed to fetch logo: Error fetching logo" := rfl

/-- C5 amended: in createPDFWithTable (and the other table/chart modules)
any logo fetch or probe error is absorbed: no logo is resolved, the render
still completes with all its parts, and the header holds only the company
name.  In createHeaderedParagraphsPDF only a dimension-probe failure is
absorbed (falling back to 100×50); a fetch failure is rethrown and aborts
the render. -/
theorem logo_failure_handling (companyName : String) (bytes : ℕ)
    (paragraphs : List (Option String)) (g : TableGeom) (headingAdv : ℚ)
    (pdfData : List String) (td : Option PwtTableData) (y0 : ℚ) :
    pwtLogoResult FetchOutcome.fetchError = none ∧
    (createPDFWithTableModel g headingAdv FetchOutcome.fetchError companyName
        pdfData td y0).1 = [HdrEv.company companyName] ∧
    (createPDFWithTableModel g headingAdv FetchOutcome.fetchError companyName
        pdfData td y0) =
      ([HdrEv.company companyName],
        (pdfData.map (fun s => [ParaEv.text s, ParaEv.moveDown])).flatten,
        (pwtTableBlock g headingAdv td y0).1,
        footerPass (1 + (pwtTableBlock g headingAdv td y0).1.count TblEv.pageBreak)) ∧
    fetchLogo (FetchOutcome.ok bytes none) = Except.ok ⟨bytes, 100, 50⟩ ∧
    createHeaderedParagraphsPDF FetchOutcome.fetchError companyName paragraphs =
      Except.error "Failed to fetch logo: Error fetching logo" := by
  refine ⟨rfl, rfl, rfl, rfl, rfl⟩

/-- C9: a table with an empty item list is skipped entirely — no heading,
no header row, no rows, cursor unchanged — and the document renders
exactly as if no table had been supplied, footer pass included; the same
holds for addProfessionalTable, which returns startY untouched. -/
theorem empty_table_skipped (g : TableGeom) (m : MTGeom) (headingAdv : ℚ)
    (fetch : FetchOutcome) (companyName : String) (pdfData : List String)
    (hd : String) (y0 startY : ℚ) :
    pwtTableBlock g headingAdv (some ⟨hd, []⟩) y0 = ([], y0) ∧
    pwtTableBlock g headingAdv none y0 = ([], y0) ∧
    createPDFWithTableModel g headingAdv fetch companyName pdfData
        (some ⟨hd, []⟩) y0 =
      createPDFWithTableModel g headingAdv fetch companyName pdfData none y0 ∧
    (createPDFWithTableModel g headingAdv fetch companyName pdfData
        (some ⟨hd, []⟩) y0).2.2.2 = footerPass 1 ∧
    mtTableBlock m headingAdv (some ⟨hd, []⟩) startY = ([], startY) := by
  refine ⟨rfl, rfl, rfl, rfl, rfl⟩

/-! ### Bar charts (C7) -/

/-- Math.max over a spread non-empty data array (0 stands in for the empty
case, which the bar loop never evaluates with data present). -/
def jsMaxList : List ℚ → ℚ
  | [] => 0
  | x :: xs => xs.foldl max x

/-- Bar heights of drawBarChart (pdfWithCharts lines 869-896):
barHeight_i = (chartHeight * data_i) / maxValue. -/
def drawBarChartHeights (chartHeight : ℚ) (data : List ℚ) : List ℚ :=
  data.map (fun d => chartHeight * d / jsMaxList data)

/-- Bar heights of renderBarChart (part_013 lines 340-353):
barHeight_i = (data_i / maxValue) * chartHeight. -/
def renderBarChartHeights (chartHeight : ℚ) (data : List ℚ) : List ℚ :=
  data.map (fun d => d / jsMaxList data * chartHeight)

/-- Monotonicity of the fold computing the maximum. -/
theorem le_foldl_max (a b : ℚ) (l : List ℚ) (h : a ≤ b) : a ≤ l.foldl max b := by
  induction l generalizing b with
  | nil => exact h
  | cons x xs ih => exact ih _ (le_trans h (le_max_left b x))

/-- Every member of the fold is bounded by it. -/
theorem mem_le_foldl_max (d b : ℚ) (l : List ℚ) (hd : d ∈ l) :
    d ≤ l.foldl max b := by
  induction l generalizing b with
  | nil => cases hd
  | cons x xs ih =>
    rcases List.mem_cons.mp hd with rfl | hmem
    · show d ≤ xs.foldl max (max b d)
      exact le_foldl_max _ _ _ (le_max_right b d)
    · show d ≤ xs.foldl max (max b x)
      exact ih _ hmem

/-- Every data value is bounded by the JavaScript maximum. -/
theorem mem_le_jsMaxList (d : ℚ) (data : List ℚ) (hd : d ∈ data) :
    d ≤ jsMaxList data := by
  cases data with
  | nil => cases hd
  | cons x xs =>
    rcases List.mem_cons.mp hd with rfl | hmem
    · exact le_foldl_max _ _ _ le_rfl
    · exact mem_le_foldl_max _ _ _ hmem

/-- Counterexample to C7 as stated: with non-empty all-zero data the bar
whose value equals the maximum (0) is not drawn at the full chart height —
the quotient degenerates (0/0; NaN in the JavaScript code) and the drawn
height is not 300. -/
theorem zero_data_bar_not_full_height_cex :
    jsMaxList [0] = 0 ∧ drawBarChartHeights 300 [(0 : ℚ)] = [0] ∧
    ((0 : ℚ) ≠ 300) := by
  refine ⟨rfl, ?_, by norm_num⟩
  norm_num [drawBarChartHeights, jsMaxList]

/-- C7 amended: for non-empty data with a positive maximum, bar i is drawn
at height chartHeight * data_i / max(data); every bar whose value equals
the maximum reaches exactly the full chart height, every bar stays within
the chart height, and renderBarChart computes the same heights as
drawBarChart. -/
theorem bar_heights_proportional (chartHeight : ℚ) (data : List ℚ) (i : ℕ)
    (hi : i < data.length) (hmax : 0 < jsMaxList data) (hch : 0 ≤ chartHeight) :
    (drawBarChartHeights chartHeight data)[i]? =
      some (chartHeight * data[i] / jsMaxList data) ∧
    (data[i] = jsMaxList data →
      (drawBarChartHeights chartHeight data)[i]? = some chartHeight) ∧
    (∀ q ∈ drawBarChartHeights chartHeight data, q ≤ chartHeight) ∧
    renderBarChartHeights chartHeight data = drawBarChartHeights chartHeight data := by
  have hmne : jsMaxList data ≠ 0 := ne_of_gt hmax
  refine ⟨?_, ?_, ?_, ?_⟩
  · simp [drawBarChartHeights, List.getElem?_map, List.getElem?_eq_getElem hi]
  · intro hmaxi
    simp only [drawBarChartHeights, List.getElem?_map,
      List.getElem?_eq_getElem hi]
    rw [hmaxi]
    show some (chartHeight * jsMaxList data / jsMaxList data) = some chartHeight
    rw [mul_div_assoc, div_self hmne, mul_one]
  · intro q hq
    simp only [drawBarChartHeights, List.mem_map] at hq
    obtain ⟨d, hdmem, rfl⟩ := hq
    have hdm : d ≤ jsMaxList data := mem_le_jsMaxList d data hdmem
    calc chartHeight * d / jsMaxList data
        ≤ chartHeight * jsMaxList data / jsMaxList data := by
          gcongr
      _ = chartHeight := by rw [mul_div_assoc, div_self hmne, mul_one]
  · apply List.map_congr_left
    intro d _
    rw [div_mul_eq_mul_div, mul_comm]

/-- Witness for the amended C7: data [45, 67] on a 300-point chart; the
second bar carries the maximum. -/
theorem bar_heights_proportional_witness :
    (1 < ([45, 67] : List ℚ).length ∧ 0 < jsMaxList [45, 67] ∧
      (0 : ℚ) ≤ 300) ∧
    ((drawBarChartHeights 300 [45, 67])[1]? =
        some (300 * ([45, 67] : List ℚ)[1] / jsMaxList [45, 67]) ∧
      (([45, 67] : List ℚ)[1] = jsMaxList [45, 67] →
        (drawBarChartHeights 300 [45, 67])[1]? = some 300) ∧
      (∀ q ∈ drawBarChartHeights 300 [45, 67], q ≤ 300) ∧
      renderBarChartHeights 300 [45, 67] = drawBarChartHeights 300 [45, 67]) :=
  ⟨⟨by norm_num, by norm_num [jsMaxList], by norm_num⟩,
    bar_heights_proportional 300 [45, 67] 1 (by norm_num)
      (by norm_num [jsMaxList]) (by norm_num)⟩

/-! ### Pie charts (C8) -/

/-- Wedges of drawPieChart (pdfWithCharts lines 940-988): entries with
value exactly zero are skipped; each remaining entry spans
(d / total) * fullCircle from the accumulated angle.  The code works with
fullCircle = 2π and initial angle -π/2; here the full circle is a
parameter, every angle of the code being its model value times
2π / fullCircle. -/
def drawPieWedges (fullCircle total : ℚ) : ℚ → List ℚ → List (ℚ × ℚ)
  | _, [] => []
  | cur, d :: rest =>
    if d = 0 then drawPieWedges fullCircle total cur rest
    else (cur, cur + d / total * fullCircle) ::
      drawPieWedges fullCircle total (cur + d / total * fullCircle) rest

/-- Legend of drawPieChart (lines 990-1019): zero entries are skipped; each
remaining entry shows its percentage d / total * 100 (displayed with
toFixed(1)). -/
def drawPieLegend (total : ℚ) : List (String × ℚ) → List (String × ℚ)
  | [] => []
  | (lab, d) :: rest =>
    if d = 0 then drawPieLegend total rest
    else (lab, d / total * 100) :: drawPieLegend total rest

/-- Math.round: round half up. -/
def jsRound (q : ℚ) : ℤ := ⌊q + 1 / 2⌋

/-- Wedges of renderPieChart (part_013 lines 395-417): no zero-skipping —
every entry, a zero included, emits a slice command (zero entries span a
degenerate zero angle). -/
def renderPieWedges (fullCircle total : ℚ) : ℚ → List ℚ → List (ℚ × ℚ)
  | _, [] => []
  | cur, d :: rest =>
    (cur, cur + d / total * fullCircle) ::
      renderPieWedges fullCircle total (cur + d / total * fullCircle) rest

/-- Legend of renderPieChart (lines 419-446): no zero-skipping — every
entry gets a legend line with Math.round(d / total * 100) percent. -/
def renderPieLegend (total : ℚ) : List (String × ℚ) → List (String × ℤ)
  | [] => []
  | (lab, d) :: rest =>
    (lab, jsRound (d / total * 100)) :: renderPieLegend total rest

/-- Sum of the angular spans of a wedge list. -/
def wedgeSpanSum (l : List (ℚ × ℚ)) : ℚ := (l.map (fun p => p.2 - p.1)).sum

/-- Each wedge starts where the previous one ended, the first at the given
initial angle. -/
def wedgesChainedFrom : ℚ → List (ℚ × ℚ) → Bool
  | _, [] => true
  | a, (s, e) :: rest => (s == a) && wedgesChainedFrom e rest

/-- Span sum of a cons cell. -/
theorem wedgeSpanSum_cons (s e : ℚ) (l : List (ℚ × ℚ)) :
    wedgeSpanSum ((s, e) :: l) = (e - s) + wedgeSpanSum l := by
  simp [wedgeSpanSum]

/-- The spans of the drawn wedges sum to the data total's share of the full
circle. -/
theorem drawPieWedges_spanSum (fullCircle total a : ℚ) (data : List ℚ) :
    wedgeSpanSum (drawPieWedges fullCircle total a data) =
      data.sum / total * fullCircle := by
  induction data generalizing a with
  | nil => simp [drawPieWedges, wedgeSpanSum]
  | cons d rest ih =>
    by_cases hd : d = 0
    · simp only [drawPieWedges, List.sum_cons]
      rw [if_pos hd, ih, hd]
      ring
    · simp only [drawPieWedges, List.sum_cons]
      rw [if_neg hd, wedgeSpanSum_cons, ih]
      ring

/-- The drawn wedges are accumulated sequentially from the initial
angle. -/
theorem drawPieWedges_chained (fullCircle total a : ℚ) (data : List ℚ) :
    wedgesChainedFrom a (drawPieWedges fullCircle total a data) = true := by
  induction data generalizing a with
  | nil => rfl
  | cons d rest ih =>
    by_cases hd : d = 0
    · simp only [drawPieWedges]
      rw [if_pos hd]
      exact ih a
    · simp only [drawPieWedges]
      rw [if_neg hd]
      simp only [wedgesChainedFrom]
      rw [ih]
      simp

/-- The exact legend percentages sum to the data total's share of 100. -/
theorem drawPieLegend_pctSum (total : ℚ) (pairs : List (String × ℚ)) :
    ((drawPieLegend total pairs).map Prod.snd).sum =
      (pairs.map Prod.snd).sum / total * 100 := by
  induction pairs with
  | nil => simp [drawPieLegend]
  | cons p rest ih =>
    obtain ⟨lab, d⟩ := p
    by_cases hd : d = 0
    · simp only [drawPieLegend, List.map_cons, List.sum_cons]
      rw [if_pos hd, ih, hd]
      ring
    · simp only [drawPieLegend, List.map_cons, List.sum_cons]
      rw [if_neg hd, List.map_cons, List.sum_cons, ih]
      ring

/-- renderPieChart draws one legend line per entry, zeros included. -/
theorem renderPieLegend_length (total : ℚ) (pairs : List (String × ℚ)) :
    (renderPieLegend total pairs).length = pairs.length := by
  induction pairs with
  | nil => rfl
  | cons p rest ih =>
    obtain ⟨lab, d⟩ := p
    simp [renderPieLegend, ih]

/-- Counterexample to C8 as stated: renderPieChart does not skip zero
entries — with data [1, 0] the zero entry yields a legend line "B (0%)"
and a degenerate zero-span slice command. -/
theorem render_pie_zero_entry_cex :
    renderPieLegend 1 [("A", 1), ("B", 0)] = [("A", 100), ("B", 0)] ∧
    renderPieWedges 360 1 0 [1, 0] = [(0, 360), (360, 360)] := by
  constructor
  · norm_num [renderPieLegend, jsRound]
  · norm_num [renderPieWedges]

/-- C8 amended: for positive totals the wedge spans of drawPieChart sum to
the full circle, wedges are accumulated sequentially from the fixed
initial angle, the exact legend percentages sum to 100, and drawPieChart
skips zero entries in both wedges and legend; renderPieChart (part_013)
does not skip them — every entry, zeros included, gets a wedge command and
a legend line. -/
theorem pie_wedges_and_legend (fullCircle a0 total : ℚ) (lab : String)
    (data : List ℚ) (pairs : List (String × ℚ))
    (hd : 0 < data.sum) (hp : 0 < (pairs.map Prod.snd).sum) :
    wedgeSpanSum (drawPieWedges fullCircle data.sum a0 data) = fullCircle ∧
    wedgesChainedFrom a0 (drawPieWedges fullCircle data.sum a0 data) = true ∧
    ((drawPieLegend ((pairs.map Prod.snd).sum) pairs).map Prod.snd).sum = 100 ∧
    drawPieWedges fullCircle total a0 (0 :: data) =
      drawPieWedges fullCircle total a0 data ∧
    drawPieLegend total ((lab, 0) :: pairs) = drawPieLegend total pairs ∧
    (renderPieLegend total pairs).length = pairs.length := by
  refine ⟨?_, drawPieWedges_chained _ _ _ _, ?_,
    by simp [drawPieWedges], by simp [drawPieLegend],
    renderPieLegend_length _ _⟩
  · rw [drawPieWedges_spanSum, div_self (ne_of_gt hd), one_mul]
  · rw [drawPieLegend_pctSum, div_self (ne_of_gt hp), one_mul]

/-- Witness for the amended C8 at the spec's scenario data
[35, 28, 20, 12, 5] with a 360-degree circle starting at -90. -/
theorem pie_wedges_and_legend_witness :
    ((0 : ℚ) < ([35, 28, 20, 12, 5] : List ℚ).sum ∧
      (0 : ℚ) < (([("A", 35), ("B", 28), ("C", 20), ("D", 12), ("E", 5)] :
        List (String × ℚ)).map Prod.snd).sum) ∧
    (wedgeSpanSum (drawPieWedges 360 ([35, 28, 20, 12, 5] : List ℚ).sum (-90)
        [35, 28, 20, 12, 5]) = 360 ∧
      wedgesChainedFrom (-90) (drawPieWedges 360 ([35, 28, 20, 12, 5] : List ℚ).sum
        (-90) [35, 28, 20, 12, 5]) = true ∧
      ((drawPieLegend ((([("A", 35), ("B", 28), ("C", 20), ("D", 12), ("E", 5)] :
          List (String × ℚ)).map Prod.snd).sum)
        [("A", 35), ("B", 28), ("C", 20), ("D", 12), ("E", 5)]).map Prod.snd).sum = 100 ∧
      drawPieWedges 360 100 (-90) (0 :: [35, 28, 20, 12, 5]) =
        drawPieWedges 360 100 (-90) [35, 28, 20, 12, 5] ∧
      drawPieLegend 100 (("Z", 0) :: [("A", 35), ("B", 28), ("C", 20), ("D", 12), ("E", 5)]) =
        drawPieLegend 100 [("A", 35), ("B", 28), ("C", 20), ("D", 12), ("E", 5)] ∧
      (renderPieLegend 100 [("A", 35), ("B", 28), ("C", 20), ("D", 12), ("E", 5)]).length =
        ([("A", 35), ("B", 28), ("C", 20), ("D", 12), ("E", 5)] :
          List (String × ℚ)).length) :=
  ⟨⟨by norm_num, by norm_num⟩,
    pie_wedges_and_legend 360 (-90) 100 "Z" [35, 28, 20, 12, 5]
      [("A", 35), ("B", 28), ("C", 20), ("D", 12), ("E", 5)]
      (by norm_num) (by norm_num)⟩

end PdfGen
